import Mathlib

/-!
# Community-Feed backend: formal model and verification

A shallow embedding of the core of the Community-Feed backend
(`community/models.py` and `community/views.py`): the materialized-path
comment tree (`Comment.save`, `PostDetailView.get_object`), the
toggle-like ledger (`LikeToggleView.post`), comment creation
(`CommentCreateView.perform_create`), and the rolling 24-hour
leaderboard (`LeaderboardView.get`).

Database rows are Lean structures, tables are lists of rows, primary-key
lookups are `List.find?`, and the text-column `ORDER BY path` is a
byte-wise lexicographic order on the path string.  Machine-level detail
(HTTP, serializers, SQL engine) is out of scope; the embedded functions
follow the Python control flow statement by statement.
-/

namespace CommunityFeed

/-! ## Lexicographic order on path strings

`PostDetailView.get_object` fetches comments with `.order_by('path')`;
`path` is a `TextField`, so the database compares the raw strings
character by character. -/

/-- Strict lexicographic order on character lists, as the database
compares two text values. -/
def lexLt : List Char → List Char → Bool
  | [], [] => false
  | [], _ :: _ => true
  | _ :: _, [] => false
  | a :: as, b :: bs => if a < b then true else if a = b then lexLt as bs else false

/-- `s` sorts no later than `t` under the database's text ordering. -/
def pathLe (s t : String) : Prop := lexLt s.data t.data = true ∨ s = t

instance (s t : String) : Decidable (pathLe s t) :=
  inferInstanceAs (Decidable (lexLt s.data t.data = true ∨ s = t))

/-- Number of `"."` separators in a materialized path. -/
def countDots (s : String) : Nat := s.data.count '.'

/-! ## Comment rows (`community/models.py`, `class Comment`) -/

/-- One row of the `Comment` table. -/
structure CommentRec where
  id : Nat
  postId : Nat
  authorId : Nat
  parentId : Option Nat
  content : String
  path : String
  depth : Nat
  likeCount : Nat
  createdAt : Int
  deriving Repr, DecidableEq

/-! ## Tree reconstruction (`PostDetailView.get_object`)

The Python code builds mutable node dicts, keeps them in
`comment_map` keyed by primary key, and appends child nodes to their
parent's `children` list in place.  Because primary keys are unique, a
node is determined by its id; the state below is the id-keyed arena:
`cmap` maps each registered comment id to its accumulated list of
children ids (in append order), and `roots` is the accumulated
`root_comments` list.  The serialized forest is exactly `roots`
unfolded through `cmap`. -/

/-- The reconstruction state: `comment_map` (id ↦ children ids, in
insertion order) and `root_comments` (ids, in append order). -/
structure BuildState where
  cmap : List (Nat × List Nat)
  roots : List Nat
  deriving Repr, DecidableEq

/-- `parent_node['children'].append(node)`: append `childId` to the entry
of key `p` (the first matching entry; keys are unique in practice). -/
def addChild (m : List (Nat × List Nat)) (p childId : Nat) : List (Nat × List Nat) :=
  match m with
  | [] => []
  | (k, v) :: rest =>
    if k == p then (k, v ++ [childId]) :: rest else (k, v) :: addChild rest p childId

/-- One iteration of the `for comment in comments_qs` loop: register the
fresh node in `comment_map`, then attach it to `root_comments` (no
parent) or to its parent's children list (parent found in the map);
a comment whose parent is not in the map is left unattached. -/
def buildStep (st : BuildState) (c : CommentRec) : BuildState :=
  let m := st.cmap ++ [(c.id, [])]
  match c.parentId with
  | none => { cmap := m, roots := st.roots ++ [c.id] }
  | some p =>
    match m.lookup p with
    | some _ => { cmap := addChild m p c.id, roots := st.roots }
    | none => { cmap := m, roots := st.roots }

/-- The whole reconstruction loop over the path-ordered comment list. -/
def buildCommentTree (cs : List CommentRec) : BuildState :=
  cs.foldl buildStep { cmap := [], roots := [] }

/-- The children list accumulated for comment id `i`. -/
def childrenIds (st : BuildState) (i : Nat) : List Nat :=
  (st.cmap.lookup i).getD []

/-! ## The persistent store -/

/-- One row of the `Post` table. -/
structure PostRec where
  id : Nat
  authorId : Nat
  content : String
  likeCount : Nat
  createdAt : Int
  deriving Repr, DecidableEq

/-- One row of the `Like` table; `(userId, targetType, targetId)` is
unique (`Like.Meta.unique_together`). -/
structure LikeRec where
  userId : Nat
  targetType : String
  targetId : Nat
  createdAt : Int
  deriving Repr, DecidableEq

/-- One row of the `KarmaEvent` table (the append-only karma ledger). -/
structure KarmaRec where
  userId : Nat
  amount : Int
  reason : String
  relatedType : String
  relatedId : Nat
  createdAt : Int
  deriving Repr, DecidableEq

/-- The four logical tables. -/
structure Store where
  posts : List PostRec
  comments : List CommentRec
  likes : List LikeRec
  karma : List KarmaRec
  deriving Repr, DecidableEq

/-! ## Toggle-like (`LikeToggleView.post`) -/

inductive ToggleStatus where
  | liked
  | unliked
  | alreadyLiked
  deriving Repr, DecidableEq

/-- The JSON body of a successful toggle response. -/
structure ToggleResponse where
  status : ToggleStatus
  targetType : String
  targetId : Nat
  isLiked : Bool
  deriving Repr, DecidableEq

inductive ToggleFailure where
  /-- `{'error': 'Invalid target_type'}`, HTTP 400. -/
  | invalidTargetType
  /-- `{'error': 'target_id required'}`, HTTP 400. -/
  | targetIdRequired
  /-- `Post not found` / `Comment not found`, HTTP 404. -/
  | targetNotFound
  /-- Uncaught `TypeError` raised by Django when `.delete()` is called on
  a sliced queryset (`Cannot use 'limit' or 'offset' with delete()`),
  surfacing as HTTP 500; the enclosing `transaction.atomic()` block rolls
  back. -/
  | slicedDeleteError
  deriving Repr, DecidableEq

/-- `Like.objects.filter(user=.., target_type=.., target_id=..)` is
non-empty. -/
def likeExists (s : Store) (u : Nat) (tt : String) (tid : Nat) : Bool :=
  s.likes.any fun l => l.userId == u && l.targetType == tt && l.targetId == tid

/-- `Post.objects.filter(pk=tid).update(like_count=F('like_count') + 1)`. -/
def incPostLikeCount (posts : List PostRec) (tid : Nat) : List PostRec :=
  posts.map fun p => if p.id == tid then { p with likeCount := p.likeCount + 1 } else p

/-- `Comment.objects.filter(pk=tid).update(like_count=F('like_count') + 1)`. -/
def incCommentLikeCount (cs : List CommentRec) (tid : Nat) : List CommentRec :=
  cs.map fun c => if c.id == tid then { c with likeCount := c.likeCount + 1 } else c

/-- `Post.objects.filter(pk=tid).update(like_count=F('like_count') - 1)`. -/
def decPostLikeCount (posts : List PostRec) (tid : Nat) : List PostRec :=
  posts.map fun p => if p.id == tid then { p with likeCount := p.likeCount - 1 } else p

/-- `Comment.objects.filter(pk=tid).update(like_count=F('like_count') - 1)`. -/
def decCommentLikeCount (cs : List CommentRec) (tid : Nat) : List CommentRec :=
  cs.map fun c => if c.id == tid then { c with likeCount := c.likeCount - 1 } else c

/-- Target resolution: author, karma amount and karma reason for the
target (`karma_amount = 5, karma_reason = 'post_like'` for posts;
`1, 'comment_like'` for comments); `none` when the target row is
missing (HTTP 404). -/
def targetInfo (s : Store) (tt : String) (tid : Nat) : Option (Nat × Int × String) :=
  if tt == "post" then
    (s.posts.find? fun p => p.id == tid).map fun p => (p.authorId, (5 : Int), "post_like")
  else
    (s.comments.find? fun c => c.id == tid).map fun c => (c.authorId, (1 : Int), "comment_like")

/-- The body of the `try: with transaction.atomic():` like branch.  The
`Like.objects.create` insert hits the `(user, target_type, target_id)`
uniqueness constraint exactly when the row already exists at insert
time; the `IntegrityError` aborts the atomic block (rolling it back) and
the `except IntegrityError` handler answers `already_liked`.  Otherwise
the insert succeeds and, in the same atomic unit, a karma event is
recorded for the target's author (skipped when the liker is the author)
and the denormalized counter is incremented. -/
def likeBranch (s : Store) (u : Nat) (tt : String) (tid : Nat)
    (targetAuthor : Nat) (karmaAmount : Int) (karmaReason : String) (now : Int) :
    ToggleResponse × Store :=
  if likeExists s u tt tid then
    ({ status := .alreadyLiked, targetType := tt, targetId := tid, isLiked := true }, s)
  else
    let newLike : LikeRec := { userId := u, targetType := tt, targetId := tid, createdAt := now }
    let newEvent : KarmaRec :=
      { userId := targetAuthor, amount := karmaAmount, reason := karmaReason,
        relatedType := tt, relatedId := tid, createdAt := now }
    let s1 := { s with likes := s.likes ++ [newLike] }
    let s2 :=
      if targetAuthor ≠ u then { s1 with karma := s1.karma ++ [newEvent] }
      else s1
    let s3 :=
      if tt == "post" then { s2 with posts := incPostLikeCount s2.posts tid }
      else { s2 with comments := incCommentLikeCount s2.comments tid }
    ({ status := .liked, targetType := tt, targetId := tid, isLiked := true }, s3)

/-- The `with transaction.atomic():` unlike branch.  The code deletes
the like row, evaluates (and discards) the most recent matching karma
event, decrements the counter, and then calls
`KarmaEvent.objects.filter(...).order_by('-created_at')[:1].delete()`.
Django refuses `.delete()` on a sliced queryset and raises `TypeError`,
so the atomic block always aborts: every step is rolled back and the
request fails with an uncaught error, leaving the store at `s`. -/
def unlikeBranch (s : Store) (u : Nat) (tt : String) (tid : Nat)
    (targetAuthor : Nat) (karmaReason : String) :
    Except ToggleFailure ToggleResponse × Store :=
  let remainingLikes :=
    s.likes.eraseP (fun l => l.userId == u && l.targetType == tt && l.targetId == tid)
  let afterLikeDelete := { s with likes := remainingLikes }
  let _fetchedMostRecent := afterLikeDelete.karma.filter fun k =>
    k.userId == targetAuthor && k.reason == karmaReason && k.relatedType == tt && k.relatedId == tid
  let _afterDec :=
    if tt == "post" then
      { afterLikeDelete with posts := decPostLikeCount afterLikeDelete.posts tid }
    else
      { afterLikeDelete with comments := decCommentLikeCount afterLikeDelete.comments tid }
  (Except.error ToggleFailure.slicedDeleteError, s)

/-- `LikeToggleView.post`: validate the target type and id, resolve the
target, then branch on the optimistic existence check. -/
def toggle (s : Store) (u : Nat) (targetType : String) (targetId : Nat) (now : Int) :
    Except ToggleFailure ToggleResponse × Store :=
  if targetType ≠ "post" ∧ targetType ≠ "comment" then
    (Except.error ToggleFailure.invalidTargetType, s)
  else if targetId == 0 then
    (Except.error ToggleFailure.targetIdRequired, s)
  else
    match targetInfo s targetType targetId with
    | none => (Except.error ToggleFailure.targetNotFound, s)
    | some (targetAuthor, karmaAmount, karmaReason) =>
      if likeExists s u targetType targetId then
        unlikeBranch s u targetType targetId targetAuthor karmaReason
      else
        let r := likeBranch s u targetType targetId targetAuthor karmaAmount karmaReason now
        (Except.ok r.1, r.2)

/-! ## Comment creation (`CommentCreateView.perform_create` and
`Comment.save`) -/

inductive CreateCommentError where
  /-- DRF `ValidationError` (`Invalid pk "..." - object does not
  exist.`) raised by `serializer.is_valid(raise_exception=True)` for the
  writable `parent` field, HTTP 400. -/
  | validationError
  /-- `NotFound("Post not found")`, HTTP 404. -/
  | postNotFound
  /-- `NotFound("Parent comment not found")`, HTTP 404. -/
  | parentNotFound
  deriving Repr, DecidableEq

/-- `Comment.save` for a new root comment: depth 0, path = the comment's
own primary key rendered as a string. -/
def newRootComment (newId postId authorId : Nat) (content : String) (now : Int) : CommentRec :=
  { id := newId, postId := postId, authorId := authorId, parentId := none, content := content,
    path := Nat.repr newId, depth := 0, likeCount := 0, createdAt := now }

/-- `Comment.save` for a new child comment: depth = parent depth + 1,
path = parent path ++ "." ++ own primary key. -/
def newChildComment (newId postId authorId : Nat) (par : CommentRec) (content : String)
    (now : Int) : CommentRec :=
  { id := newId, postId := postId, authorId := authorId, parentId := some par.id,
    content := content, path := par.path ++ "." ++ Nat.repr newId, depth := par.depth + 1,
    likeCount := 0, createdAt := now }

/-- `CommentCreateView.perform_create` followed by `Comment.save`:
resolve the post (404 if missing); read the `parent` field — the Python
guard `if parent_id:` treats both a missing field and a stated parent of
`0` as falsy, i.e. as "no parent"; for a truthy parent id, resolve
`Comment.objects.get(pk=parent_id, post=post)` (404 if absent or
belonging to a different post); then persist with the computed path and
depth.  `newId` is the fresh primary key the database assigns. -/
def commentPerformCreate (s : Store) (u postId : Nat) (parentField : Option Nat)
    (content : String) (now : Int) (newId : Nat) :
    Except CreateCommentError (CommentRec × Store) :=
  match s.posts.find? fun p => p.id == postId with
  | none => Except.error CreateCommentError.postNotFound
  | some _ =>
    if parentField.getD 0 == 0 then
      let c := newRootComment newId postId u content now
      Except.ok (c, { s with comments := s.comments ++ [c] })
    else
      match s.comments.find? fun c => c.id == parentField.getD 0 && c.postId == postId with
      | none => Except.error CreateCommentError.parentNotFound
      | some par =>
        let c := newChildComment newId postId u par content now
        Except.ok (c, { s with comments := s.comments ++ [c] })

/-- The full comment-creation request.  `CreateAPIView.create` runs
`serializer.is_valid(raise_exception=True)` before `perform_create`;
`CommentCreateSerializer` lists `parent` in `Meta.fields` but not in
`read_only_fields`, so DRF builds a writable `PrimaryKeyRelatedField`
over `Comment.objects.all()` for it: a stated parent id matching no
comment at all is rejected at validation with a 400 `ValidationError`
(persisting nothing) before the post is even resolved; an absent (or
null) parent, or one naming an existing comment of any post, proceeds
to `commentPerformCreate`. -/
def commentCreate (s : Store) (u postId : Nat) (parentField : Option Nat) (content : String)
    (now : Int) (newId : Nat) : Except CreateCommentError (CommentRec × Store) :=
  match parentField with
  | none => commentPerformCreate s u postId parentField content now newId
  | some q =>
    if ((s.comments.find? fun c => c.id == q)).isSome then
      commentPerformCreate s u postId parentField content now newId
    else
      Except.error CreateCommentError.validationError

/-- Stores reachable from a comment-free store by successful comment
creations (each with a fresh database-assigned primary key). -/
inductive Reachable : Store → Prop where
  | init (posts : List PostRec) :
      Reachable { posts := posts, comments := [], likes := [], karma := [] }
  | create (s s' : Store) (c : CommentRec) (u postId : Nat) (parentField : Option Nat)
      (content : String) (now : Int) (newId : Nat)
      (hr : Reachable s)
      (hfresh : newId ∉ s.comments.map CommentRec.id)
      (hok : commentCreate s u postId parentField content now newId = Except.ok (c, s')) :
      Reachable s'

/-! ## Leaderboard (`LeaderboardView.get`) -/

/-- One `{rank, user_id, karma}` leaderboard row (the username column is
determined by `user_id` through the FK join and is omitted). -/
structure LbEntry where
  rank : Nat
  userId : Nat
  karma : Int
  deriving Repr, DecidableEq

/-- `cutoff = timezone.now() - timedelta(hours=24)` (time in seconds). -/
def windowCutoff (now : Int) : Int := now - 24 * 3600

/-- `KarmaEvent.objects.filter(created_at__gte=cutoff)`. -/
def inWindowEvents (evs : List KarmaRec) (now : Int) : List KarmaRec :=
  evs.filter fun e => windowCutoff now ≤ e.createdAt

/-- `annotate(karma=Sum('amount'))` for one user over a list of events. -/
def karmaSum (evs : List KarmaRec) (u : Nat) : Int :=
  ((evs.filter fun e => e.userId == u).map KarmaRec.amount).sum

/-- Insertion step of the descending-karma sort. -/
def insertKarmaDesc (x : Nat × Int) : List (Nat × Int) → List (Nat × Int)
  | [] => [x]
  | y :: ys => if y.2 < x.2 then x :: y :: ys else y :: insertKarmaDesc x ys

/-- `order_by('-karma')`: sort the grouped rows by karma descending.
SQL fixes only the karma key; rows with equal karma stay in the order
the database enumerated the groups. -/
def sortKarmaDesc : List (Nat × Int) → List (Nat × Int)
  | [] => []
  | x :: xs => insertKarmaDesc x (sortKarmaDesc xs)

/-- `for rank, entry in enumerate(leaderboard, start=1)`. -/
def addRanks (r : Nat) : List (Nat × Int) → List LbEntry
  | [] => []
  | x :: xs => { rank := r, userId := x.1, karma := x.2 } :: addRanks (r + 1) xs

/-- The leaderboard query, parameterized by `userOrder`: the order in
which the database happens to enumerate the `GROUP BY user_id` groups
(an implementation-defined permutation of the distinct in-window
users).  Groups are summed, ordered by karma descending, truncated to
5, and ranked 1..N. -/
def leaderboardEnum (userOrder : List Nat) (evs : List KarmaRec) (now : Int) : List LbEntry :=
  let win := inWindowEvents evs now
  let rows := userOrder.map fun u => (u, karmaSum win u)
  addRanks 1 ((sortKarmaDesc rows).take 5)

/-- One concrete group enumeration: distinct in-window users. -/
def groupUsers (evs : List KarmaRec) (now : Int) : List Nat :=
  ((inWindowEvents evs now).map KarmaRec.userId).dedup

/-- `LeaderboardView.get` under the concrete `groupUsers` enumeration. -/
def leaderboard (evs : List KarmaRec) (now : Int) : List LbEntry :=
  leaderboardEnum (groupUsers evs now) evs now

/-! ## Hypotheses describing a fetched comment set -/

/-- Every stated parent id occurs in the set (guaranteed in the store by
the cascade-delete ownership of `Comment.parent`). -/
def ParentClosed (cs : List CommentRec) : Prop :=
  ∀ c ∈ cs, c.parentId = none ∨ ∃ d ∈ cs, c.parentId = some d.id

instance (cs : List CommentRec) : Decidable (ParentClosed cs) :=
  inferInstanceAs (Decidable (∀ c ∈ cs, c.parentId = none ∨ ∃ d ∈ cs, c.parentId = some d.id))

/-- Paths follow the `Comment.save` assignment rules: a root's path is
its own id rendered as a string, a child's path is its parent's path
followed by `"."` and its own id. -/
def WellFormedPaths (cs : List CommentRec) : Prop :=
  ∀ c ∈ cs, (c.parentId = none → c.path = Nat.repr c.id) ∧
    ∀ d ∈ cs, c.parentId = some d.id → c.path = d.path ++ "." ++ Nat.repr c.id

instance (cs : List CommentRec) : Decidable (WellFormedPaths cs) :=
  inferInstanceAs (Decidable (∀ c ∈ cs, (c.parentId = none → c.path = Nat.repr c.id) ∧
    ∀ d ∈ cs, c.parentId = some d.id → c.path = d.path ++ "." ++ Nat.repr c.id))

/-- The list is sorted by the database's `order_by('path')`. -/
def PathSorted (cs : List CommentRec) : Prop :=
  List.Pairwise (fun c d => pathLe c.path d.path) cs

instance (cs : List CommentRec) : Decidable (PathSorted cs) :=
  inferInstanceAs (Decidable (List.Pairwise (fun c d : CommentRec => pathLe c.path d.path) cs))

/-- Every comment's stated parent occurs strictly earlier in the list. -/
def ParentsPrecede (cs : List CommentRec) : Prop :=
  ∀ l₁ c l₂, cs = l₁ ++ c :: l₂ → ∀ p, c.parentId = some p → p ∈ l₁.map CommentRec.id

/-! ## Concrete instances used by the claim theorems -/

/-- The spec's worked example: root 1, child 2, grandchild 3. -/
def c2cs : List CommentRec :=
  [{ id := 1, postId := 1, authorId := 1, parentId := none, content := "a", path := "1",
     depth := 0, likeCount := 0, createdAt := 0 },
   { id := 2, postId := 1, authorId := 2, parentId := some 1, content := "b", path := "1.2",
     depth := 1, likeCount := 0, createdAt := 1 },
   { id := 3, postId := 1, authorId := 3, parentId := some 2, content := "c", path := "1.2.3",
     depth := 2, likeCount := 0, createdAt := 2 }]

/-- Two-digit and one-digit ids: as raw strings "10" sorts before "9",
but the child of 9 (id 10, path "9.10") still sorts after its parent. -/
def c10cs : List CommentRec :=
  [{ id := 2, postId := 1, authorId := 1, parentId := none, content := "a", path := "2",
     depth := 0, likeCount := 0, createdAt := 0 },
   { id := 9, postId := 1, authorId := 1, parentId := none, content := "b", path := "9",
     depth := 0, likeCount := 0, createdAt := 1 },
   { id := 10, postId := 1, authorId := 2, parentId := some 9, content := "c", path := "9.10",
     depth := 1, likeCount := 0, createdAt := 2 }]

def c10child : CommentRec :=
  { id := 10, postId := 1, authorId := 2, parentId := some 9, content := "c", path := "9.10",
    depth := 1, likeCount := 0, createdAt := 2 }

/-- A fetched comment whose stated parent id (1) is not in the set. -/
def c5orphan : CommentRec :=
  { id := 2, postId := 1, authorId := 1, parentId := some 1, content := "o", path := "1.2",
    depth := 1, likeCount := 0, createdAt := 0 }

/-- The orphan (stated parent 99 missing) next to an ordinary root. -/
def c5cs : List CommentRec :=
  [{ id := 1, postId := 1, authorId := 1, parentId := none, content := "a", path := "1",
     depth := 0, likeCount := 0, createdAt := 0 },
   { id := 2, postId := 1, authorId := 1, parentId := some 99, content := "o", path := "99.2",
     depth := 1, likeCount := 0, createdAt := 1 }]

def c5c : CommentRec :=
  { id := 2, postId := 1, authorId := 1, parentId := some 99, content := "o", path := "99.2",
    depth := 1, likeCount := 0, createdAt := 1 }

/-- A store in which user 2 has liked post 1 (authored by user 1): the
like row, the credited karma event and the counter at 1. -/
def c1store : Store :=
  { posts := [{ id := 1, authorId := 1, content := "p", likeCount := 1, createdAt := 0 }],
    comments := [],
    likes := [{ userId := 2, targetType := "post", targetId := 1, createdAt := 0 }],
    karma := [{ userId := 1, amount := 5, reason := "post_like", relatedType := "post",
                relatedId := 1, createdAt := 0 }] }

/-- Post 1 by user 1 and a comment 4 by user 2, with no likes yet. -/
def c6store : Store :=
  { posts := [{ id := 1, authorId := 1, content := "p", likeCount := 0, createdAt := 0 }],
    comments := [{ id := 4, postId := 1, authorId := 2, parentId := none, content := "c",
                   path := "4", depth := 0, likeCount := 0, createdAt := 0 }],
    likes := [], karma := [] }

/-- Posts 1 and 2; one comment (id 3) that belongs to post 2. -/
def c9store : Store :=
  { posts := [{ id := 1, authorId := 1, content := "p", likeCount := 0, createdAt := 0 },
              { id := 2, authorId := 1, content := "q", likeCount := 0, createdAt := 0 }],
    comments := [{ id := 3, postId := 2, authorId := 1, parentId := none, content := "c",
                   path := "3", depth := 0, likeCount := 0, createdAt := 0 }],
    likes := [], karma := [] }

/-- Users 1 and 2 with equal in-window karma. -/
def c8events : List KarmaRec :=
  [{ userId := 1, amount := 5, reason := "post_like", relatedType := "post", relatedId := 1,
     createdAt := 0 },
   { userId := 2, amount := 5, reason := "post_like", relatedType := "post", relatedId := 2,
     createdAt := 0 }]

def c4root : CommentRec :=
  { id := 1, postId := 1, authorId := 1, parentId := none, content := "r", path := "1",
    depth := 0, likeCount := 0, createdAt := 0 }

def c4child : CommentRec :=
  { id := 2, postId := 1, authorId := 2, parentId := some 1, content := "c", path := "1.2",
    depth := 1, likeCount := 0, createdAt := 1 }

def c4s0 : Store :=
  { posts := [{ id := 1, authorId := 1, content := "p", likeCount := 0, createdAt := 0 }],
    comments := [], likes := [], karma := [] }

def c4s1 : Store := { c4s0 with comments := [c4root] }

def c4s2 : Store := { c4s0 with comments := [c4root, c4child] }

/-! ## Lexicographic-order lemmas -/

theorem lexLt_irrefl (l : List Char) : lexLt l l = false := by
  induction l with
  | nil => rfl
  | cons a as ih =>
    simp only [lexLt, if_neg (lt_irrefl a), if_pos rfl]
    exact ih

theorem lexLt_asymm : ∀ l₁ l₂ : List Char,
    lexLt l₁ l₂ = true → lexLt l₂ l₁ = true → False
  | [], [], h₁, _ => by simp [lexLt] at h₁
  | [], _ :: _, _, h₂ => by simp [lexLt] at h₂
  | _ :: _, [], h₁, _ => by simp [lexLt] at h₁
  | a :: as, b :: bs, h₁, h₂ => by
    simp only [lexLt] at h₁ h₂
    rcases lt_trichotomy a b with hab | hab | hab
    · rw [if_neg (lt_asymm hab), if_neg (ne_of_gt hab)] at h₂
      exact Bool.noConfusion h₂
    · subst hab
      rw [if_neg (lt_irrefl a), if_pos rfl] at h₁ h₂
      exact lexLt_asymm as bs h₁ h₂
    · rw [if_neg (lt_asymm hab), if_neg (ne_of_gt hab)] at h₁
      exact Bool.noConfusion h₁

theorem lexLt_append_cons : ∀ (as : List Char) (b : Char) (bs : List Char),
    lexLt as (as ++ b :: bs) = true
  | [], _, _ => rfl
  | a :: as, b, bs => by
    simp only [List.cons_append, lexLt, if_neg (lt_irrefl a), if_pos rfl]
    exact lexLt_append_cons as b bs

/-- A child's path is its parent's path extended with `"."` and the
child id, so the parent's path is strictly smaller in the database's
text order. -/
theorem lexLt_parent_path {cp pp : String} {n : Nat}
    (h : cp = pp ++ "." ++ Nat.repr n) : lexLt pp.data cp.data = true := by
  have hdata : cp.data = pp.data ++ '.' :: (Nat.repr n).data := by
    rw [h]
    simp [String.data_append]
  rw [hdata]
  exact lexLt_append_cons pp.data '.' (Nat.repr n).data

/-- No string both sorts no later than another and strictly after it. -/
theorem not_pathLe_of_lexLt {s t : String} (h : lexLt t.data s.data = true) :
    ¬ pathLe s t := by
  intro hle
  rcases hle with hlt | heq
  · exact lexLt_asymm _ _ hlt h
  · rw [heq] at h
    rw [lexLt_irrefl] at h
    exact Bool.noConfusion h

/-! ## Decimal digits contain no separator -/

theorem digitChar_ne_dot (n : Nat) : Nat.digitChar n ≠ '.' := by
  rcases n with _|_|_|_|_|_|_|_|_|_|_|_|_|_|_|_|n
  · decide
  · decide
  · decide
  · decide
  · decide
  · decide
  · decide
  · decide
  · decide
  · decide
  · decide
  · decide
  · decide
  · decide
  · decide
  · decide
  · have hne : ∀ m : Nat, m < 16 → n + 16 ≠ m := by omega
    unfold Nat.digitChar
    rw [if_neg (hne 0 (by norm_num)), if_neg (hne 1 (by norm_num)),
        if_neg (hne 2 (by norm_num)), if_neg (hne 3 (by norm_num)),
        if_neg (hne 4 (by norm_num)), if_neg (hne 5 (by norm_num)),
        if_neg (hne 6 (by norm_num)), if_neg (hne 7 (by norm_num)),
        if_neg (hne 8 (by norm_num)), if_neg (hne 9 (by norm_num)),
        if_neg (hne 10 (by norm_num)), if_neg (hne 11 (by norm_num)),
        if_neg (hne 12 (by norm_num)), if_neg (hne 13 (by norm_num)),
        if_neg (hne 14 (by norm_num)), if_neg (hne 15 (by norm_num))]
    decide

theorem toDigitsCore_no_dot (b : Nat) (fuel : Nat) :
    ∀ (n : Nat) (acc : List Char), '.' ∉ acc → '.' ∉ Nat.toDigitsCore b fuel n acc := by
  induction fuel with
  | zero => intro n acc hacc; simpa [Nat.toDigitsCore] using hacc
  | succ f ih =>
    intro n acc hacc
    simp only [Nat.toDigitsCore]
    split
    · intro h
      rcases List.mem_cons.mp h with h | h
      · exact digitChar_ne_dot _ h.symm
      · exact hacc h
    · apply ih
      intro h
      rcases List.mem_cons.mp h with h | h
      · exact digitChar_ne_dot _ h.symm
      · exact hacc h

/-- The decimal rendering of a primary key contains no `'.'`. -/
theorem repr_no_dot (n : Nat) : '.' ∉ (Nat.repr n).data := by
  show '.' ∉ (Nat.toDigits 10 n).asString.data
  have h : (Nat.toDigits 10 n).asString.data = Nat.toDigits 10 n := rfl
  rw [h]
  exact toDigitsCore_no_dot 10 (n + 1) n [] (by simp)

theorem countDots_repr (n : Nat) : countDots (Nat.repr n) = 0 :=
  List.count_eq_zero.mpr (repr_no_dot n)

/-- Extending a path with `"."` and an id adds exactly one separator. -/
theorem countDots_child (pp : String) (n : Nat) :
    countDots (pp ++ "." ++ Nat.repr n) = countDots pp + 1 := by
  show ((pp ++ "." ++ Nat.repr n).data).count '.' = pp.data.count '.' + 1
  have hdata : (pp ++ "." ++ Nat.repr n).data = pp.data ++ '.' :: (Nat.repr n).data := by
    simp [String.data_append]
  rw [hdata, List.count_append, List.count_cons]
  have h0 : ((Nat.repr n).data).count '.' = 0 := List.count_eq_zero.mpr (repr_no_dot n)
  rw [h0]
  simp

/-- A path cannot extend itself. -/
theorem path_ne_self_extend (pp : String) (n : Nat) : pp ≠ pp ++ "." ++ Nat.repr n := by
  intro h
  have h2 := lexLt_parent_path h
  rw [lexLt_irrefl] at h2
  exact Bool.noConfusion h2

/-! ## Association-map lemmas for the reconstruction state -/

theorem keys_addChild (m : List (Nat × List Nat)) (p c : Nat) :
    (addChild m p c).map Prod.fst = m.map Prod.fst := by
  induction m with
  | nil => rfl
  | cons kv rest ih =>
    obtain ⟨k, v⟩ := kv
    by_cases hk : k == p
    · simp [addChild, hk]
    · simp [addChild, hk, ih]

theorem lookup_addChild_self (m : List (Nat × List Nat)) (p c : Nat) (v : List Nat)
    (h : m.lookup p = some v) : (addChild m p c).lookup p = some (v ++ [c]) := by
  induction m with
  | nil => simp [List.lookup] at h
  | cons kv rest ih =>
    obtain ⟨k, w⟩ := kv
    by_cases hk : k = p
    · subst hk
      simp [List.lookup] at h
      subst h
      simp [addChild, List.lookup]
    · have hkb : (k == p) = false := by simp [hk]
      have hpb : (p == k) = false := by simp [Ne.symm hk]
      simp only [List.lookup, hpb] at h
      simp only [addChild, hkb, Bool.false_eq_true, if_false, List.lookup, hpb]
      exact ih h

theorem lookup_addChild_ne (m : List (Nat × List Nat)) (p c k : Nat) (h : k ≠ p) :
    (addChild m p c).lookup k = m.lookup k := by
  induction m with
  | nil => rfl
  | cons kv rest ih =>
    obtain ⟨k₀, w⟩ := kv
    by_cases hk : k₀ = p
    · subst hk
      have hkb : (k == k₀) = false := by simp [h]
      simp [addChild, List.lookup, hkb]
    · have hkb : (k₀ == p) = false := by simp [hk]
      simp only [addChild, hkb, Bool.false_eq_true, if_false]
      by_cases hkk : k = k₀
      · subst hkk
        simp [List.lookup]
      · have hkkb : (k == k₀) = false := by simp [hkk]
        simp only [List.lookup, hkkb]
        exact ih

theorem lookup_isSome_iff_mem_keys (m : List (Nat × List Nat)) (k : Nat) :
    (m.lookup k).isSome = true ↔ k ∈ m.map Prod.fst := by
  induction m with
  | nil => simp [List.lookup]
  | cons kv rest ih =>
    obtain ⟨k₀, w⟩ := kv
    by_cases hk : k = k₀
    · subst hk
      simp [List.lookup]
    · have hkb : (k == k₀) = false := by simp [hk]
      simp [List.lookup, hkb, hk, ih]

theorem lookup_eq_none_of_not_mem_keys (m : List (Nat × List Nat)) (k : Nat)
    (h : k ∉ m.map Prod.fst) : m.lookup k = none := by
  rcases ho : m.lookup k with _ | v
  · rfl
  · exfalso
    apply h
    rw [← lookup_isSome_iff_mem_keys]
    rw [ho]
    rfl

/-! ## Characterizing the reconstruction loop -/

theorem buildCommentTree_snoc (cs : List CommentRec) (c : CommentRec) :
    buildCommentTree (cs ++ [c]) = buildStep (buildCommentTree cs) c := by
  simp [buildCommentTree, List.foldl_append]

theorem buildStep_none (st : BuildState) (c : CommentRec) (hc : c.parentId = none) :
    buildStep st c = { cmap := st.cmap ++ [(c.id, [])], roots := st.roots ++ [c.id] } := by
  simp [buildStep, hc]

theorem buildStep_some_found (st : BuildState) (c : CommentRec) (p : Nat) (v : List Nat)
    (hc : c.parentId = some p) (hm : (st.cmap ++ [(c.id, [])]).lookup p = some v) :
    buildStep st c =
      { cmap := addChild (st.cmap ++ [(c.id, [])]) p c.id, roots := st.roots } := by
  simp [buildStep, hc, hm]

theorem buildStep_some_missing (st : BuildState) (c : CommentRec) (p : Nat)
    (hc : c.parentId = some p) (hm : (st.cmap ++ [(c.id, [])]).lookup p = none) :
    buildStep st c = { cmap := st.cmap ++ [(c.id, [])], roots := st.roots } := by
  simp [buildStep, hc, hm]

/-- Looking up in the map right after registering `(i, [])`. -/
theorem lookup_append_singleton (m : List (Nat × List Nat)) (i k : Nat) (l : List Nat)
    (h : (m ++ [(i, [])]).lookup k = some l) :
    m.lookup k = some l ∨ (k = i ∧ l = []) := by
  rw [List.lookup_append] at h
  rcases ho : m.lookup k with _ | v
  · rw [ho] at h
    simp only [Option.none_or] at h
    by_cases hk : k = i
    · subst hk
      simp [List.lookup] at h
      exact Or.inr ⟨rfl, h⟩
    · have hkb : (k == i) = false := by simp [hk]
      simp [List.lookup, hkb] at h
  · rw [ho] at h
    simp only [Option.or] at h
    exact Or.inl h

/-- The registered ids are exactly the processed comments' ids, in
order. -/
theorem build_keys (cs : List CommentRec) :
    (buildCommentTree cs).cmap.map Prod.fst = cs.map CommentRec.id := by
  induction cs using List.reverseRecOn with
  | nil => rfl
  | append_singleton cs c ih =>
    rw [buildCommentTree_snoc]
    rcases hc : c.parentId with _ | p
    · rw [buildStep_none _ _ hc]
      simp [ih]
    · rcases hm : ((buildCommentTree cs).cmap ++ [(c.id, [])]).lookup p with _ | v
      · rw [buildStep_some_missing _ _ _ hc hm]
        simp [ih]
      · rw [buildStep_some_found _ _ _ _ hc hm]
        simp [keys_addChild, ih]

/-- `root_comments` collects exactly the comments with no parent, in
input order (unconditionally). -/
theorem build_roots (cs : List CommentRec) :
    (buildCommentTree cs).roots = ((cs.filter fun c => c.parentId.isNone).map CommentRec.id) := by
  induction cs using List.reverseRecOn with
  | nil => rfl
  | append_singleton cs c ih =>
    rw [buildCommentTree_snoc]
    rcases hc : c.parentId with _ | p
    · rw [buildStep_none _ _ hc]
      simp [List.filter_append, hc, ih, List.filter]
    · rcases hm : ((buildCommentTree cs).cmap ++ [(c.id, [])]).lookup p with _ | v
      · rw [buildStep_some_missing _ _ _ hc hm]
        simp [List.filter_append, hc, ih, List.filter]
      · rw [buildStep_some_found _ _ _ _ hc hm]
        simp [List.filter_append, hc, ih, List.filter]

/-- Every id in a children list comes from a processed comment whose
stated parent is that list's key. -/
theorem build_children_source (cs : List CommentRec) :
    ∀ k l, (buildCommentTree cs).cmap.lookup k = some l →
      ∀ x ∈ l, ∃ d ∈ cs, d.id = x ∧ d.parentId = some k := by
  induction cs using List.reverseRecOn with
  | nil =>
    intro k l h
    simp [buildCommentTree, List.lookup] at h
  | append_singleton cs c ih =>
    intro k l hl x hx
    rw [buildCommentTree_snoc] at hl
    rcases hc : c.parentId with _ | p
    · rw [buildStep_none _ _ hc] at hl
      rcases lookup_append_singleton _ _ _ _ hl with hold | ⟨hk, hempty⟩
      · obtain ⟨d, hd, hdx, hdp⟩ := ih k l hold x hx
        exact ⟨d, by simp [hd], hdx, hdp⟩
      · subst hempty
        exact absurd hx (List.not_mem_nil x)
    · rcases hm : ((buildCommentTree cs).cmap ++ [(c.id, [])]).lookup p with _ | v
      · rw [buildStep_some_missing _ _ _ hc hm] at hl
        rcases lookup_append_singleton _ _ _ _ hl with hold | ⟨hk, hempty⟩
        · obtain ⟨d, hd, hdx, hdp⟩ := ih k l hold x hx
          exact ⟨d, by simp [hd], hdx, hdp⟩
        · subst hempty
          exact absurd hx (List.not_mem_nil x)
      · rw [buildStep_some_found _ _ _ _ hc hm] at hl
        by_cases hkp : k = p
        · subst hkp
          rw [lookup_addChild_self _ _ _ _ hm] at hl
          injection hl with hl
          subst hl
          rcases List.mem_append.mp hx with hxv | hxc
          · rcases lookup_append_singleton _ _ _ _ hm with hold | ⟨hki, hempty⟩
            · obtain ⟨d, hd, hdx, hdp⟩ := ih k v hold x hxv
              exact ⟨d, by simp [hd], hdx, hdp⟩
            · subst hempty
              exact absurd hxv (List.not_mem_nil x)
          · have hxc : x = c.id := List.mem_singleton.mp hxc
            exact ⟨c, by simp, hxc.symm, hc⟩
        · rw [lookup_addChild_ne _ _ _ _ hkp] at hl
          rcases lookup_append_singleton _ _ _ _ hl with hold | ⟨hk, hempty⟩
          · obtain ⟨d, hd, hdx, hdp⟩ := ih k l hold x hx
            exact ⟨d, by simp [hd], hdx, hdp⟩
          · subst hempty
            exact absurd hx (List.not_mem_nil x)

/-- A prefix of a parents-precede list again has the property. -/
theorem parentsPrecede_front (cs l₂ : List CommentRec) (hpp : ParentsPrecede (cs ++ l₂)) :
    ParentsPrecede cs := by
  intro l₁ c l₂' he p hp
  exact hpp l₁ c (l₂' ++ l₂) (by rw [he]; simp) p hp

/-- In a parents-precede list with distinct ids, no earlier comment
names the last comment as its parent. -/
theorem no_parent_is_last (cs : List CommentRec) (c : CommentRec)
    (hnd : ((cs ++ [c]).map CommentRec.id).Nodup) (hpp : ParentsPrecede (cs ++ [c])) :
    ∀ d ∈ cs, d.parentId ≠ some c.id := by
  intro d hd hdp
  obtain ⟨l₁, l₂, he⟩ := List.append_of_mem hd
  have hin : c.id ∈ l₁.map CommentRec.id :=
    hpp l₁ d (l₂ ++ [c]) (by rw [he]; simp) c.id hdp
  have hin' : c.id ∈ cs.map CommentRec.id := by
    rw [he]
    simp only [List.map_append, List.map_cons]
    exact List.mem_append.mpr (Or.inl hin)
  rw [List.map_append] at hnd
  rcases List.nodup_append.mp hnd with ⟨_, _, hdisj⟩
  exact hdisj hin' (by simp)
/-- In a path-sorted, well-formed, parent-closed comment list with
distinct ids, every comment's parent occurs strictly before it. -/
theorem parentsPrecede_of_sorted (cs : List CommentRec)
    (hclosed : ParentClosed cs) (hwf : WellFormedPaths cs) (hsorted : PathSorted cs) :
    ParentsPrecede cs := by
  intro l₁ c l₂ he p hp
  have hc_mem : c ∈ cs := by rw [he]; simp
  rcases hclosed c hc_mem with hnone | ⟨d, hd, hdp⟩
  · rw [hp] at hnone
    exact Option.noConfusion hnone
  have hpd : p = d.id := by
    rw [hp] at hdp
    injection hdp
  have hpath : c.path = d.path ++ "." ++ Nat.repr c.id := (hwf c hc_mem).2 d hd hdp
  have hlt : lexLt d.path.data c.path.data = true := lexLt_parent_path hpath
  rw [he] at hd
  rcases List.mem_append.mp hd with h₁ | h₂
  · subst hpd
    exact List.mem_map.mpr ⟨d, h₁, rfl⟩
  · rcases List.mem_cons.mp h₂ with hdc | h₂
    · subst hdc
      exact absurd hpath (path_ne_self_extend _ _)
    · have hs : List.Pairwise (fun a b : CommentRec => pathLe a.path b.path) cs := hsorted
      rw [he] at hs
      have hrel : pathLe c.path d.path :=
        (List.pairwise_cons.mp (List.pairwise_append.mp hs).2.1).1 d h₂
      exact absurd hrel (not_pathLe_of_lexLt hlt)

/-- Each processed comment's children list is exactly the ids of the
comments naming it as parent, in input order. -/
theorem build_children (cs : List CommentRec)
    (hnd : (cs.map CommentRec.id).Nodup) (hpp : ParentsPrecede cs) :
    ∀ c ∈ cs, (buildCommentTree cs).cmap.lookup c.id =
      some (((cs.filter fun d => d.parentId == some c.id).map CommentRec.id)) := by
  induction cs using List.reverseRecOn with
  | nil =>
    intro c hc
    exact absurd hc (List.not_mem_nil c)
  | append_singleton cs c ih =>
    have hnd' : (cs.map CommentRec.id).Nodup := by
      rw [List.map_append] at hnd
      exact hnd.of_append_left
    have hfresh : c.id ∉ cs.map CommentRec.id := by
      rw [List.map_append] at hnd
      rcases List.nodup_append.mp hnd with ⟨_, _, hdisj⟩
      exact fun hmem => hdisj hmem (by simp)
    have hpp' : ParentsPrecede cs := parentsPrecede_front cs [c] hpp
    have hlast : ∀ d ∈ cs, d.parentId ≠ some c.id := no_parent_is_last cs c hnd hpp
    have hselffree : c.parentId ≠ some c.id := by
      intro hcc
      have hin := hpp cs c [] rfl c.id hcc
      exact hfresh hin
    have hlookup_new :
        ((buildCommentTree cs).cmap ++ [(c.id, [])]).lookup c.id = some [] := by
      rw [List.lookup_append, lookup_eq_none_of_not_mem_keys _ _ (by rw [build_keys]; exact hfresh)]
      simp [List.lookup]
    have hnew_filter :
        ((cs ++ [c]).filter fun d => d.parentId == some c.id) = [] := by
      rw [List.filter_append]
      have h1 : (cs.filter fun d => d.parentId == some c.id) = [] := by
        rw [List.filter_eq_nil_iff]
        intro d hd
        simp only [beq_iff_eq]
        exact hlast d hd
      have hb : (c.parentId == some c.id) = false := by
        simp [hselffree]
      have h2 : ([c].filter fun d => d.parentId == some c.id) = [] := by
        simp [List.filter, hb]
      rw [h1, h2]
      rfl
    intro e he
    rw [buildCommentTree_snoc]
    rcases hc : c.parentId with _ | p
    -- the appended comment is a root: the map only gains the (c.id, []) entry
    · rw [buildStep_none _ _ hc]
      rcases List.mem_append.mp he with he₁ | he₂
      · have hne : e.id ≠ c.id := by
          intro hee
          exact hfresh (hee ▸ List.mem_map.mpr ⟨e, he₁, rfl⟩)
        rw [List.lookup_append, ih hnd' hpp' e he₁]
        simp only [Option.or]
        rw [List.filter_append]
        have hb : (c.parentId == some e.id) = false := by
          rw [hc]
          rfl
        have h2 : ([c].filter fun d => d.parentId == some e.id) = [] := by
          simp [List.filter, hb]
        rw [h2, List.append_nil]
      · have hec : e = c := List.mem_singleton.mp he₂
        subst hec
        rw [hlookup_new, hnew_filter]
        rfl
    -- the appended comment names parent p, which was already registered
    · have hp_in : p ∈ cs.map CommentRec.id := hpp cs c [] rfl p hc
      obtain ⟨d₀, hd₀_mem, hd₀_id⟩ := List.mem_map.mp hp_in
      have hpc : p ≠ c.id := by
        intro hpc
        exact hfresh (hpc ▸ hp_in)
      have hold₀ := ih hnd' hpp' d₀ hd₀_mem
      rw [hd₀_id] at hold₀
      have hm : ((buildCommentTree cs).cmap ++ [(c.id, [])]).lookup p =
          some ((cs.filter fun d => d.parentId == some p).map CommentRec.id) := by
        rw [List.lookup_append, hold₀]
        rfl
      rw [buildStep_some_found _ _ _ _ hc hm]
      rcases List.mem_append.mp he with he₁ | he₂
      · by_cases hep : e.id = p
        -- e is the parent of the appended comment: its list gains c.id
        · rw [hep, lookup_addChild_self _ _ _ _ hm]
          have hb : (c.parentId == some p) = true := by
            rw [hc]
            exact beq_self_eq_true (some p)
          have h2 : ([c].filter fun d => d.parentId == some p) = [c] := by
            simp [List.filter, hb]
          rw [List.filter_append, h2, List.map_append]
          rfl
        · have hne : e.id ≠ c.id := by
            intro hee
            exact hfresh (hee ▸ List.mem_map.mpr ⟨e, he₁, rfl⟩)
          rw [lookup_addChild_ne _ _ _ _ hep, List.lookup_append, ih hnd' hpp' e he₁]
          simp only [Option.or]
          rw [List.filter_append]
          have hb : (c.parentId == some e.id) = false := by
            rw [hc]
            have hpe : p ≠ e.id := fun hh => hep hh.symm
            simp [hpe]
          have h2 : ([c].filter fun d => d.parentId == some e.id) = [] := by
            simp [List.filter, hb]
          rw [h2, List.append_nil]
      · have hec : e = c := List.mem_singleton.mp he₂
        subst hec
        have hcp : e.id ≠ p := fun hh => hpc hh.symm
        rw [lookup_addChild_ne _ _ _ _ hcp, hlookup_new, hnew_filter]
        rfl

/-! ## Counting nodes in the reconstructed forest -/

theorem sum_map_add_nat {α : Type} (l : List α) (f g : α → Nat) :
    (l.map fun a => f a + g a).sum = (l.map f).sum + (l.map g).sum := by
  induction l with
  | nil => rfl
  | cons a l ih =>
    simp only [List.map_cons, List.sum_cons, ih]
    omega

theorem countP_eq_sum_map {α : Type} (l : List α) (p : α → Bool) :
    l.countP p = (l.map fun a => if p a then 1 else 0).sum := by
  induction l with
  | nil => rfl
  | cons a l ih =>
    rw [List.countP_cons, List.map_cons, List.sum_cons, ih]
    omega

/-- Double counting: summing per-`a` match counts over `l₁` equals
summing per-`b` match counts over `l₂`. -/
theorem sum_countP_swap {α : Type} (l₁ l₂ : List α) (r : α → α → Bool) :
    (l₁.map fun a => l₂.countP fun b => r a b).sum
      = (l₂.map fun b => l₁.countP fun a => r a b).sum := by
  induction l₁ with
  | nil => simp
  | cons a l₁ ih =>
    have hstep : (l₂.map fun b => (a :: l₁).countP fun x => r x b)
        = l₂.map fun b => (l₁.countP fun x => r x b) + (if r a b then 1 else 0) := by
      apply List.map_congr_left
      intro b _
      rw [List.countP_cons]
    rw [List.map_cons, List.sum_cons, hstep, sum_map_add_nat, ← ih, ← countP_eq_sum_map]
    have heta : (List.countP (r a) l₂) = (List.countP (fun b => r a b) l₂) := rfl
    omega

/-- With distinct ids and parent-closure, summing the sizes of all
per-comment child sets counts exactly the comments that have parents. -/
theorem sum_child_counts (cs : List CommentRec)
    (hnd : (cs.map CommentRec.id).Nodup) (hclosed : ParentClosed cs) :
    (cs.map fun c => cs.countP fun d => d.parentId == some c.id).sum
      = cs.countP fun d => !d.parentId.isNone := by
  rw [sum_countP_swap]
  have hpointwise : ∀ d ∈ cs,
      (cs.countP fun c => d.parentId == some c.id) = if d.parentId.isNone then 0 else 1 := by
    intro d hd
    rcases hclosed d hd with hnone | ⟨e, he, hdp⟩
    · rw [hnone]
      simp only [Option.isNone_none, if_true]
      rw [List.countP_eq_zero]
      intro c _
      simp
    · rw [hdp]
      simp only [Option.isNone_some, Bool.false_eq_true, if_false]
      have hcount : (cs.countP fun c => some e.id == some c.id)
          = List.count e.id (cs.map CommentRec.id) := by
        rw [List.count, List.countP_map]
        apply List.countP_congr
        intro c _
        show (some e.id == some c.id) = true ↔ ((fun x => x == e.id) ∘ CommentRec.id) c = true
        simp only [Function.comp]
        by_cases hce : c.id = e.id
        · simp [hce]
        · have hec : e.id ≠ c.id := fun hh => hce hh.symm
          simp [hce, hec]
      rw [hcount]
      exact List.count_eq_one_of_mem hnd (List.mem_map.mpr ⟨e, he, rfl⟩)
  have hmap : (cs.map fun d => cs.countP fun c => d.parentId == some c.id)
      = cs.map fun d => if d.parentId.isNone then 0 else 1 :=
    List.map_congr_left hpointwise
  rw [hmap, countP_eq_sum_map]
  apply congrArg
  apply List.map_congr_left
  intro d _
  rcases d.parentId with _ | q
  · simp
  · simp

/-- Root count plus total child count equals the input size. -/
theorem roots_plus_children_eq_length (cs : List CommentRec)
    (hnd : (cs.map CommentRec.id).Nodup) (hclosed : ParentClosed cs)
    (hpp : ParentsPrecede cs) :
    (buildCommentTree cs).roots.length
      + (cs.map fun c => (childrenIds (buildCommentTree cs) c.id).length).sum
      = cs.length := by
  have hroots : (buildCommentTree cs).roots.length
      = cs.countP fun c => c.parentId.isNone := by
    rw [build_roots, List.length_map, ← List.countP_eq_length_filter]
  have hchild : (cs.map fun c => (childrenIds (buildCommentTree cs) c.id).length)
      = cs.map fun c => cs.countP fun d => d.parentId == some c.id := by
    apply List.map_congr_left
    intro c hc
    rw [childrenIds, build_children cs hnd hpp c hc]
    rw [Option.getD_some, List.length_map, ← List.countP_eq_length_filter]
  rw [hroots, hchild, sum_child_counts cs hnd hclosed]
  have hsplit := List.length_eq_countP_add_countP (fun c : CommentRec => c.parentId.isNone) cs
  have hnotp : (cs.countP fun d => !d.parentId.isNone)
      = cs.countP (fun a : CommentRec => decide (¬ a.parentId.isNone = true)) := by
    apply List.countP_congr
    intro d _
    rcases hdp : d.parentId with _ | q
    · simp [hdp]
    · simp [hdp]
  rw [hnotp]
  omega
/-! ## Claim C2: tree reconstruction -/

/-- C2: for every path-ordered list of comments of one post with
distinct ids, paths assigned by the path rules, and every stated parent
present in the list, the reconstruction (a) makes exactly the no-parent
comments roots, in input order, (b) gives every comment the children
list consisting of exactly the comments naming it as parent, in input
order, and (c) the forest's node count — roots plus one slot in exactly
one children list for every other node — equals the input comment
count. -/
theorem c2_tree_reconstruction (postPk : Nat) (cs : List CommentRec)
    (_hpost : ∀ c ∈ cs, c.postId = postPk)
    (hnd : (cs.map CommentRec.id).Nodup)
    (hclosed : ParentClosed cs)
    (hwf : WellFormedPaths cs)
    (hsorted : PathSorted cs) :
    (buildCommentTree cs).roots = ((cs.filter fun c => c.parentId.isNone).map CommentRec.id)
      ∧ (∀ c ∈ cs, (buildCommentTree cs).cmap.lookup c.id
          = some (((cs.filter fun d => d.parentId == some c.id).map CommentRec.id)))
      ∧ (buildCommentTree cs).roots.length
          + (cs.map fun c => (childrenIds (buildCommentTree cs) c.id).length).sum
          = cs.length := by
  have hpp := parentsPrecede_of_sorted cs hclosed hwf hsorted
  exact ⟨build_roots cs, build_children cs hnd hpp,
    roots_plus_children_eq_length cs hnd hclosed hpp⟩


theorem c2_witness :
    ((∀ c ∈ c2cs, c.postId = 1) ∧ (c2cs.map CommentRec.id).Nodup ∧ ParentClosed c2cs
        ∧ WellFormedPaths c2cs ∧ PathSorted c2cs)
      ∧ ((buildCommentTree c2cs).roots
            = ((c2cs.filter fun c => c.parentId.isNone).map CommentRec.id)
          ∧ (∀ c ∈ c2cs, (buildCommentTree c2cs).cmap.lookup c.id
              = some (((c2cs.filter fun d => d.parentId == some c.id).map CommentRec.id)))
          ∧ (buildCommentTree c2cs).roots.length
              + (c2cs.map fun c => (childrenIds (buildCommentTree c2cs) c.id).length).sum
              = c2cs.length) :=
  ⟨⟨by decide, by decide, by decide, by decide, by decide⟩,
    c2_tree_reconstruction 1 c2cs (by decide) (by decide) (by decide) (by decide) (by decide)⟩

/-! ## Claim C10: path order places parents before children -/

/-- C10: in a path-sorted, well-formed, closed comment set with distinct
ids, every comment with a stated parent appears strictly after that
parent (whose path is a strict prefix of the child's followed by "."),
and by the time the reconstruction loop reaches the child, the parent
id is already registered in the map — the lookup cannot miss. -/
theorem c10_parent_precedes_child (cs l₁ l₂ : List CommentRec) (c : CommentRec) (p : Nat)
    (_hnd : (cs.map CommentRec.id).Nodup)
    (hclosed : ParentClosed cs)
    (hwf : WellFormedPaths cs)
    (hsorted : PathSorted cs)
    (hsplit : cs = l₁ ++ c :: l₂)
    (hp : c.parentId = some p) :
    (∃ d ∈ l₁, d.id = p ∧ c.path = d.path ++ "." ++ Nat.repr c.id
        ∧ lexLt d.path.data c.path.data = true)
      ∧ ((buildCommentTree l₁).cmap.lookup p).isSome = true := by
  have hpp := parentsPrecede_of_sorted cs hclosed hwf hsorted
  have hmem : p ∈ l₁.map CommentRec.id := hpp l₁ c l₂ hsplit p hp
  obtain ⟨d, hd₁, hdid⟩ := List.mem_map.mp hmem
  have hd_cs : d ∈ cs := by
    rw [hsplit]
    exact List.mem_append.mpr (Or.inl hd₁)
  have hc_cs : c ∈ cs := by
    rw [hsplit]
    simp
  have hdp : c.parentId = some d.id := by
    rw [hp, hdid]
  have hpath : c.path = d.path ++ "." ++ Nat.repr c.id := (hwf c hc_cs).2 d hd_cs hdp
  refine ⟨⟨d, hd₁, hdid, hpath, lexLt_parent_path hpath⟩, ?_⟩
  rw [lookup_isSome_iff_mem_keys, build_keys]
  exact hmem


theorem c10_witness :
    ((c10cs.map CommentRec.id).Nodup ∧ ParentClosed c10cs ∧ WellFormedPaths c10cs
        ∧ PathSorted c10cs ∧ c10cs = c10cs.take 2 ++ c10child :: [] ∧ c10child.parentId = some 9)
      ∧ ((∃ d ∈ c10cs.take 2, d.id = 9 ∧ c10child.path = d.path ++ "." ++ Nat.repr c10child.id
            ∧ lexLt d.path.data c10child.path.data = true)
          ∧ ((buildCommentTree (c10cs.take 2)).cmap.lookup 9).isSome = true) :=
  ⟨⟨by decide, by decide, by decide, by decide, by decide, by decide⟩,
    c10_parent_precedes_child c10cs (c10cs.take 2) [] c10child 9
      (by decide) (by decide) (by decide) (by decide) (by decide) (by decide)⟩

/-! ## Claim C5: comments with a missing parent -/


/-- C5 counterexample: the claim says a comment whose stated parent id
is absent from the fetched set is treated as a root and still appears
in the output.  On the input `[c5orphan]` (stated parent 1, no comment
with id 1 present) the code produces an empty root list — the orphan is
registered in the map but attached nowhere, so the output forest is
empty while the input has one comment. -/
theorem c5_counterexample :
    c5orphan.parentId = some 1
      ∧ (1 ∉ ([c5orphan].map CommentRec.id))
      ∧ (buildCommentTree [c5orphan]).roots = []
      ∧ (buildCommentTree [c5orphan]).cmap = [(2, [])] := by
  decide

/-- C5 amended: a comment whose stated parent id is not present in the
fetched set is silently dropped from the output forest — it becomes
neither a root nor a member of any children list (it only remains as an
unattached entry of the id map). -/
theorem c5_orphan_dropped (cs : List CommentRec) (c : CommentRec) (p : Nat)
    (hnd : (cs.map CommentRec.id).Nodup)
    (hc : c ∈ cs) (hp : c.parentId = some p)
    (hmiss : p ∉ cs.map CommentRec.id) :
    c.id ∉ (buildCommentTree cs).roots
      ∧ ∀ k l, (buildCommentTree cs).cmap.lookup k = some l → c.id ∉ l := by
  constructor
  · rw [build_roots]
    intro hin
    obtain ⟨d, hdf, hdid⟩ := List.mem_map.mp hin
    obtain ⟨hd_cs, hdnone⟩ := List.mem_filter.mp hdf
    have hdc : d = c := List.inj_on_of_nodup_map hnd hd_cs hc hdid
    rw [hdc, hp] at hdnone
    exact Bool.noConfusion hdnone
  · intro k l hl hin
    obtain ⟨d, hd_cs, hdid, hdp⟩ := build_children_source cs k l hl c.id hin
    have hdc : d = c := List.inj_on_of_nodup_map hnd hd_cs hc hdid
    rw [hdc, hp] at hdp
    injection hdp with hpk
    apply hmiss
    rw [hpk, ← build_keys cs, ← lookup_isSome_iff_mem_keys, hl]
    rfl


theorem c5_witness :
    ((c5cs.map CommentRec.id).Nodup ∧ c5c ∈ c5cs ∧ c5c.parentId = some 99
        ∧ (99 ∉ c5cs.map CommentRec.id))
      ∧ (c5c.id ∉ (buildCommentTree c5cs).roots
          ∧ ∀ k l, (buildCommentTree c5cs).cmap.lookup k = some l → c5c.id ∉ l) :=
  ⟨⟨by decide, by decide, by decide, by decide⟩,
    c5_orphan_dropped c5cs c5c 99 (by decide) (by decide) (by decide) (by decide)⟩
/-! ## Like-toggle helper lemmas -/

theorem find?_incPostLikeCount (posts : List PostRec) (tid : Nat) :
    ((incPostLikeCount posts tid).find? fun p => p.id == tid)
      = (posts.find? fun p => p.id == tid).map fun p => { p with likeCount := p.likeCount + 1 } := by
  induction posts with
  | nil => rfl
  | cons p posts ih =>
    by_cases hp : p.id = tid
    · have hb : (p.id == tid) = true := by simp [hp]
      simp [incPostLikeCount, List.find?, hb]
    · have hb : (p.id == tid) = false := by simp [hp]
      simp only [incPostLikeCount, List.map_cons, hb, Bool.false_eq_true, if_false]
      rw [List.find?_cons_of_neg _ (by simp [hb]), List.find?_cons_of_neg _ (by simp [hb])]
      exact ih

theorem find?_incCommentLikeCount (cs : List CommentRec) (tid : Nat) :
    ((incCommentLikeCount cs tid).find? fun c => c.id == tid)
      = (cs.find? fun c => c.id == tid).map fun c => { c with likeCount := c.likeCount + 1 } := by
  induction cs with
  | nil => rfl
  | cons c cs ih =>
    by_cases hc : c.id = tid
    · have hb : (c.id == tid) = true := by simp [hc]
      simp [incCommentLikeCount, List.find?, hb]
    · have hb : (c.id == tid) = false := by simp [hc]
      simp only [incCommentLikeCount, List.map_cons, hb, Bool.false_eq_true, if_false]
      rw [List.find?_cons_of_neg _ (by simp [hb]), List.find?_cons_of_neg _ (by simp [hb])]
      exact ih

/-- Closed form of a winning like on a post. -/
theorem toggle_like_post (s : Store) (u tid : Nat) (now : Int) (P : PostRec)
    (hfind : (s.posts.find? fun p => p.id == tid) = some P)
    (hno : likeExists s u "post" tid = false) (htid : tid ≠ 0) :
    toggle s u "post" tid now =
      (Except.ok { status := .liked, targetType := "post", targetId := tid, isLiked := true },
        { posts := incPostLikeCount s.posts tid,
          comments := s.comments,
          likes := s.likes ++ [{ userId := u, targetType := "post", targetId := tid, createdAt := now }],
          karma := if P.authorId ≠ u then s.karma ++ [{ userId := P.authorId, amount := 5, reason := "post_like", relatedType := "post", relatedId := tid, createdAt := now }] else s.karma }) := by
  have htid' : (tid == 0) = false := by simp [htid]
  by_cases hau : P.authorId = u
  · simp [toggle, targetInfo, likeBranch, hfind, hno, htid', hau]
  · simp [toggle, targetInfo, likeBranch, hfind, hno, htid', hau]

/-- Closed form of a winning like on a comment. -/
theorem toggle_like_comment (s : Store) (u tid : Nat) (now : Int) (C : CommentRec)
    (hfind : (s.comments.find? fun c => c.id == tid) = some C)
    (hno : likeExists s u "comment" tid = false) (htid : tid ≠ 0) :
    toggle s u "comment" tid now =
      (Except.ok { status := .liked, targetType := "comment", targetId := tid, isLiked := true },
        { posts := s.posts,
          comments := incCommentLikeCount s.comments tid,
          likes := s.likes ++ [{ userId := u, targetType := "comment", targetId := tid, createdAt := now }],
          karma := if C.authorId ≠ u then s.karma ++ [{ userId := C.authorId, amount := 1, reason := "comment_like", relatedType := "comment", relatedId := tid, createdAt := now }] else s.karma }) := by
  have htid' : (tid == 0) = false := by simp [htid]
  have htt : (("comment" : String) == "post") = false := by decide
  by_cases hau : C.authorId = u
  · simp [toggle, targetInfo, likeBranch, hfind, hno, htid', htt, hau]
  · simp [toggle, targetInfo, likeBranch, hfind, hno, htid', htt, hau]

/-! ## Claim C1: the unlike transition -/


/-- C1 (code bug): in the liked state the unlike branch never completes.
The statement at views.py:279-285 only evaluates
`...order_by('-created_at').first()` and discards the result, and the
actual deletion attempt `...order_by('-created_at')[:1].delete()`
(views.py:292-297) is rejected by Django (`.delete()` is forbidden on a
sliced queryset) with a `TypeError`; the `transaction.atomic()` block
rolls back, so no like is deleted, no karma event is deleted, and the
counter is not decremented: the toggle errors with the store unchanged
instead of performing the specified atomic unlike. -/
theorem c1_unlike_sliced_delete_fails :
    likeExists c1store 2 "post" 1 = true
      ∧ toggle c1store 2 "post" 1 5 = (Except.error ToggleFailure.slicedDeleteError, c1store) := by
  constructor
  · decide
  · rfl

/-! ## Claim C3: the like-insert race -/

/-- C3: when the optimistic existence check misses but the insert runs
against a store that already holds the like row (the losing request of
a race), the uniqueness constraint rejects the insert, the atomic block
rolls back, and the request is answered `already_liked` with
`is_liked = true` and the store unchanged: no second like row, no karma
event, no counter increment. -/
theorem c3_like_race_already_liked (s : Store) (u : Nat) (tt : String) (tid : Nat)
    (targetAuthor : Nat) (karmaAmount : Int) (karmaReason : String) (now : Int)
    (h : likeExists s u tt tid = true) :
    likeBranch s u tt tid targetAuthor karmaAmount karmaReason now
      = ({ status := .alreadyLiked, targetType := tt, targetId := tid, isLiked := true }, s) := by
  simp [likeBranch, h]

theorem c3_witness :
    likeExists c1store 2 "post" 1 = true
      ∧ likeBranch c1store 2 "post" 1 1 5 "post_like" 7
          = ({ status := .alreadyLiked, targetType := "post", targetId := 1, isLiked := true },
              c1store) :=
  ⟨by decide, c3_like_race_already_liked c1store 2 "post" 1 1 5 "post_like" 7 (by decide)⟩

/-! ## Claim C6: karma rules and self-likes -/

/-- C6: a winning like always creates the like row and increments the
target's counter by one; it creates no karma event when the liker is
the target's author, and exactly one karma event crediting the target's
author — amount 5 for a post, 1 for a comment — otherwise. -/
theorem c6_like_karma_rules (s : Store) (u tid : Nat) (now : Int) :
    (∀ P : PostRec, (s.posts.find? fun p => p.id == tid) = some P →
      likeExists s u "post" tid = false → tid ≠ 0 →
      ((toggle s u "post" tid now).1
          = Except.ok { status := .liked, targetType := "post", targetId := tid, isLiked := true }
        ∧ (toggle s u "post" tid now).2.likes
          = s.likes ++ [{ userId := u, targetType := "post", targetId := tid, createdAt := now }]
        ∧ (P.authorId = u → (toggle s u "post" tid now).2.karma = s.karma)
        ∧ (P.authorId ≠ u → (toggle s u "post" tid now).2.karma
          = s.karma ++ [{ userId := P.authorId, amount := 5, reason := "post_like", relatedType := "post", relatedId := tid, createdAt := now }])
        ∧ ((toggle s u "post" tid now).2.posts.find? fun p => p.id == tid)
          = some { P with likeCount := P.likeCount + 1 }))
    ∧ (∀ C : CommentRec, (s.comments.find? fun c => c.id == tid) = some C →
      likeExists s u "comment" tid = false → tid ≠ 0 →
      ((toggle s u "comment" tid now).1
          = Except.ok { status := .liked, targetType := "comment", targetId := tid, isLiked := true }
        ∧ (toggle s u "comment" tid now).2.likes
          = s.likes ++ [{ userId := u, targetType := "comment", targetId := tid, createdAt := now }]
        ∧ (C.authorId = u → (toggle s u "comment" tid now).2.karma = s.karma)
        ∧ (C.authorId ≠ u → (toggle s u "comment" tid now).2.karma
          = s.karma ++ [{ userId := C.authorId, amount := 1, reason := "comment_like", relatedType := "comment", relatedId := tid, createdAt := now }])
        ∧ ((toggle s u "comment" tid now).2.comments.find? fun c => c.id == tid)
          = some { C with likeCount := C.likeCount + 1 })) := by
  constructor
  · intro P hfind hno htid
    rw [toggle_like_post s u tid now P hfind hno htid]
    refine ⟨rfl, rfl, ?_, ?_, ?_⟩
    · intro hau
      simp [hau]
    · intro hau
      simp [hau]
    · show ((incPostLikeCount s.posts tid).find? fun p => p.id == tid) = _
      rw [find?_incPostLikeCount, hfind]
      rfl
  · intro C hfind hno htid
    rw [toggle_like_comment s u tid now C hfind hno htid]
    refine ⟨rfl, rfl, ?_, ?_, ?_⟩
    · intro hau
      simp [hau]
    · intro hau
      simp [hau]
    · show ((incCommentLikeCount s.comments tid).find? fun c => c.id == tid) = _
      rw [find?_incCommentLikeCount, hfind]
      rfl


theorem c6_witness :
    ((c6store.posts.find? fun p => p.id == 1)
        = some { id := 1, authorId := 1, content := "p", likeCount := 0, createdAt := 0 }
      ∧ likeExists c6store 3 "post" 1 = false ∧ (1 : Nat) ≠ 0)
    ∧ ((toggle c6store 3 "post" 1 9).1
        = Except.ok { status := .liked, targetType := "post", targetId := 1, isLiked := true }
      ∧ (toggle c6store 3 "post" 1 9).2.likes
        = c6store.likes ++ [{ userId := 3, targetType := "post", targetId := 1, createdAt := 9 }]
      ∧ ((1 : Nat) = 3 → (toggle c6store 3 "post" 1 9).2.karma = c6store.karma)
      ∧ ((1 : Nat) ≠ 3 → (toggle c6store 3 "post" 1 9).2.karma
        = c6store.karma ++ [{ userId := 1, amount := 5, reason := "post_like", relatedType := "post", relatedId := 1, createdAt := 9 }])
      ∧ ((toggle c6store 3 "post" 1 9).2.posts.find? fun p => p.id == 1)
        = some { id := 1, authorId := 1, content := "p", likeCount := 1, createdAt := 0 }) :=
  ⟨⟨by decide, by decide, by decide⟩,
    (c6_like_karma_rules c6store 3 1 9).1
      { id := 1, authorId := 1, content := "p", likeCount := 0, createdAt := 0 }
      (by decide) (by decide) (by decide)⟩

/-! ## Claim C9: comment-creation error handling -/


/-- C9 counterexample: a stated parent id (42) that names no existing
comment is rejected by the serializer's `PrimaryKeyRelatedField`
validation with a 400 `ValidationError` — a different error kind from
the 404 `NotFound` the claim requires (the spec's own taxonomy keeps
NotFound and validation failures apart).  Nothing is persisted, but the
claim's "fails with NotFound" is false for the missing-parent case. -/
theorem c9_counterexample :
    (c9store.comments.any fun c => c.id == 42) = false
      ∧ commentCreate c9store 5 1 (some 42) "hi" 0 7
          = Except.error CreateCommentError.validationError
      ∧ Except.error (α := CommentRec × Store) CreateCommentError.validationError
          ≠ Except.error CreateCommentError.postNotFound
      ∧ Except.error (α := CommentRec × Store) CreateCommentError.validationError
          ≠ Except.error CreateCommentError.parentNotFound :=
  ⟨rfl, rfl, by simp, by simp⟩

/-- C9 amended: creation persists nothing on any failure.  It fails
with NotFound when the referenced post does not exist — both with no
stated parent and with a stated parent that resolves to an existing
comment — and when a nonzero stated parent id names an existing comment
that does not belong to the referenced post.  A stated parent id that
matches no comment at all is instead rejected earlier, by the
serializer's `parent` field validation, with a 400 ValidationError (not
NotFound), before the post is even resolved. -/
theorem c9_comment_create_not_found (s : Store) (u postId : Nat) (parentField : Option Nat)
    (content : String) (now : Int) (newId : Nat) :
    (parentField = none → (s.posts.find? fun p => p.id == postId) = none →
        commentCreate s u postId parentField content now newId
          = Except.error CreateCommentError.postNotFound)
      ∧ (∀ q, parentField = some q →
          ((s.comments.find? fun c => c.id == q)).isSome = true →
          (s.posts.find? fun p => p.id == postId) = none →
          commentCreate s u postId parentField content now newId
            = Except.error CreateCommentError.postNotFound)
      ∧ (∀ q, parentField = some q →
          (s.comments.find? fun c => c.id == q) = none →
          commentCreate s u postId parentField content now newId
            = Except.error CreateCommentError.validationError)
      ∧ (∀ q, parentField = some q → q ≠ 0 →
          ((s.comments.find? fun c => c.id == q)).isSome = true →
          ((s.posts.find? fun p => p.id == postId)).isSome = true →
          (s.comments.find? fun c => c.id == q && c.postId == postId) = none →
          commentCreate s u postId parentField content now newId
            = Except.error CreateCommentError.parentNotFound) := by
  refine ⟨?_, ?_, ?_, ?_⟩
  · intro hpf hpost
    subst hpf
    simp [commentCreate, commentPerformCreate, hpost]
  · intro q hpf hg hpost
    subst hpf
    rcases hg' : s.comments.find? fun c0 => c0.id == q with _ | par
    · rw [hg'] at hg
      exact Bool.noConfusion hg
    · simp [commentCreate, hg', commentPerformCreate, hpost]
  · intro q hpf hg
    subst hpf
    simp [commentCreate, hg]
  · intro q hpf hq0 hg hps hpar
    subst hpf
    rcases hg' : s.comments.find? fun c0 => c0.id == q with _ | par
    · rw [hg'] at hg
      exact Bool.noConfusion hg
    · rcases hpost : s.posts.find? fun p => p.id == postId with _ | P
      · rw [hpost] at hps
        exact Bool.noConfusion hps
      · have hqb : (q == 0) = false := by simp [hq0]
        simp [commentCreate, hg', commentPerformCreate, hpost, hqb, hpar]

theorem c9_witness :
    (((c9store.posts.find? fun p => p.id == 99) = none)
        ∧ commentCreate c9store 5 99 none "x" 0 7 = Except.error CreateCommentError.postNotFound)
      ∧ (((c9store.comments.find? fun c => c.id == 42) = none)
        ∧ commentCreate c9store 5 1 (some 42) "x" 0 7
            = Except.error CreateCommentError.validationError)
      ∧ ((((c9store.comments.find? fun c => c.id == 3)).isSome = true)
        ∧ ((c9store.comments.find? fun c => c.id == 3 && c.postId == 1) = none)
        ∧ commentCreate c9store 5 1 (some 3) "x" 0 7
            = Except.error CreateCommentError.parentNotFound) :=
  ⟨⟨by decide, (c9_comment_create_not_found c9store 5 99 none "x" 0 7).1 rfl (by decide)⟩,
   ⟨by decide, (c9_comment_create_not_found c9store 5 1 (some 42) "x" 0 7).2.2.1 42 rfl
      (by decide)⟩,
   ⟨by decide, by decide,
     (c9_comment_create_not_found c9store 5 1 (some 3) "x" 0 7).2.2.2 3 rfl (by decide)
       (by decide) (by decide) (by decide)⟩⟩

/-! ## Leaderboard lemmas -/

theorem mem_insertKarmaDesc (x y : Nat × Int) (l : List (Nat × Int)) :
    y ∈ insertKarmaDesc x l ↔ y = x ∨ y ∈ l := by
  induction l with
  | nil => simp [insertKarmaDesc]
  | cons z zs ih =>
    by_cases hz : z.2 < x.2
    · simp [insertKarmaDesc, hz]
    · simp only [insertKarmaDesc, hz, if_false, List.mem_cons, ih]
      tauto

theorem insertKarmaDesc_perm (x : Nat × Int) (l : List (Nat × Int)) :
    List.Perm (insertKarmaDesc x l) (x :: l) := by
  induction l with
  | nil => simp [insertKarmaDesc]
  | cons z zs ih =>
    by_cases hz : z.2 < x.2
    · simp [insertKarmaDesc, hz]
    · simp only [insertKarmaDesc, hz, if_false]
      exact (List.Perm.cons z ih).trans (List.Perm.swap x z zs)

theorem sortKarmaDesc_perm (l : List (Nat × Int)) :
    List.Perm (sortKarmaDesc l) l := by
  induction l with
  | nil => exact List.Perm.refl []
  | cons x xs ih =>
    exact (insertKarmaDesc_perm x (sortKarmaDesc xs)).trans (List.Perm.cons x ih)

theorem sorted_insertKarmaDesc (x : Nat × Int) (l : List (Nat × Int))
    (h : List.Pairwise (fun a b : Nat × Int => b.2 ≤ a.2) l) :
    List.Pairwise (fun a b : Nat × Int => b.2 ≤ a.2) (insertKarmaDesc x l) := by
  induction l with
  | nil => simp [insertKarmaDesc]
  | cons z zs ih =>
    rcases List.pairwise_cons.mp h with ⟨hz_all, hzs⟩
    by_cases hz : z.2 < x.2
    · simp only [insertKarmaDesc, hz, if_true]
      refine List.pairwise_cons.mpr ⟨?_, h⟩
      intro y hy
      rcases List.mem_cons.mp hy with hy | hy
      · rw [hy]
        exact le_of_lt hz
      · exact le_trans (hz_all y hy) (le_of_lt hz)
    · simp only [insertKarmaDesc, hz, if_false]
      refine List.pairwise_cons.mpr ⟨?_, ih hzs⟩
      intro y hy
      rcases (mem_insertKarmaDesc x y zs).mp hy with hy | hy
      · rw [hy]
        exact le_of_not_lt hz
      · exact hz_all y hy

theorem sorted_sortKarmaDesc (l : List (Nat × Int)) :
    List.Pairwise (fun a b : Nat × Int => b.2 ≤ a.2) (sortKarmaDesc l) := by
  induction l with
  | nil => exact List.Pairwise.nil
  | cons x xs ih => exact sorted_insertKarmaDesc x (sortKarmaDesc xs) ih

theorem addRanks_length (r : Nat) (l : List (Nat × Int)) :
    (addRanks r l).length = l.length := by
  induction l generalizing r with
  | nil => rfl
  | cons x xs ih => simp [addRanks, ih]

theorem addRanks_map_rank (r : Nat) (l : List (Nat × Int)) :
    (addRanks r l).map LbEntry.rank = List.range' r l.length := by
  induction l generalizing r with
  | nil => rfl
  | cons x xs ih =>
    show r :: (addRanks (r + 1) xs).map LbEntry.rank = List.range' r (xs.length + 1)
    rw [List.range'_succ, ih]

theorem addRanks_map_rank_self (r : Nat) (l : List (Nat × Int)) :
    (addRanks r l).map LbEntry.rank = List.range' r (addRanks r l).length := by
  rw [addRanks_length]
  exact addRanks_map_rank r l

theorem mem_addRanks (r : Nat) (l : List (Nat × Int)) (e : LbEntry) (he : e ∈ addRanks r l) :
    (e.userId, e.karma) ∈ l := by
  induction l generalizing r with
  | nil => exact absurd he (List.not_mem_nil e)
  | cons x xs ih =>
    rcases List.mem_cons.mp he with he | he
    · rw [he]
      exact List.mem_cons_self _ _
    · exact List.mem_cons_of_mem x (ih (r + 1) he)

theorem pairwise_addRanks (r : Nat) (l : List (Nat × Int))
    (h : List.Pairwise (fun a b : Nat × Int => b.2 ≤ a.2) l) :
    List.Pairwise (fun a b : LbEntry => b.karma ≤ a.karma) (addRanks r l) := by
  induction l generalizing r with
  | nil => exact List.Pairwise.nil
  | cons x xs ih =>
    rcases List.pairwise_cons.mp h with ⟨hx_all, hxs⟩
    refine List.pairwise_cons.mpr ⟨?_, ih (r + 1) hxs⟩
    intro e he
    exact hx_all (e.userId, e.karma) (mem_addRanks (r + 1) xs e he)

/-- The ranked-aggregation contract, for any group-enumeration order the
database might produce. -/
theorem leaderboardEnum_spec (userOrder : List Nat) (evs : List KarmaRec) (now : Int) :
    (leaderboardEnum userOrder evs now).length ≤ 5
      ∧ ((leaderboardEnum userOrder evs now).map LbEntry.rank
          = List.range' 1 (leaderboardEnum userOrder evs now).length)
      ∧ List.Pairwise (fun a b : LbEntry => b.karma ≤ a.karma) (leaderboardEnum userOrder evs now)
      ∧ (∀ e ∈ leaderboardEnum userOrder evs now,
          e.karma = karmaSum (inWindowEvents evs now) e.userId ∧ e.userId ∈ userOrder) := by
  have hmem : ∀ e ∈ leaderboardEnum userOrder evs now,
      (e.userId, e.karma)
        ∈ userOrder.map fun u => (u, karmaSum (inWindowEvents evs now) u) := by
    intro e he
    have h1 := mem_addRanks 1 _ e he
    have h2 := List.mem_of_mem_take h1
    exact (sortKarmaDesc_perm _).subset h2
  refine ⟨?_, ?_, ?_, ?_⟩
  · show (addRanks 1 _).length ≤ 5
    rw [addRanks_length]
    exact List.length_take_le 5 _
  · exact addRanks_map_rank_self 1 _
  · exact pairwise_addRanks 1 _
      ((sorted_sortKarmaDesc _).sublist (List.take_sublist 5 _))
  · intro e he
    obtain ⟨u, hu, hue⟩ := List.mem_map.mp (hmem e he)
    obtain ⟨h1, h2⟩ := Prod.mk.injEq .. ▸ hue
    constructor
    · rw [← h1, ← h2]
    · rw [← h1]
      exact hu

/-- Every user in the default group enumeration has an in-window event. -/
theorem mem_groupUsers (evs : List KarmaRec) (now : Int) (u : Nat)
    (hu : u ∈ groupUsers evs now) :
    ∃ ev ∈ evs, ev.userId = u ∧ windowCutoff now ≤ ev.createdAt := by
  have h1 : u ∈ (inWindowEvents evs now).map KarmaRec.userId :=
    List.dedup_subset _ hu
  obtain ⟨ev, hev, heu⟩ := List.mem_map.mp h1
  obtain ⟨hev_in, hev_win⟩ := List.mem_filter.mp hev
  exact ⟨ev, hev_in, heu, by simpa using hev_win⟩

/-! ## Claim C7: the leaderboard contract -/

/-- C7: the leaderboard holds at most 5 entries, ranked 1..N by
position, ordered by karma descending; each entry's karma is the sum of
that user's event amounts within the trailing 24-hour window (events
outside the window contribute nothing), and every listed user has at
least one in-window event. -/
theorem c7_leaderboard (evs : List KarmaRec) (now : Int) :
    (leaderboard evs now).length ≤ 5
      ∧ ((leaderboard evs now).map LbEntry.rank
          = List.range' 1 (leaderboard evs now).length)
      ∧ List.Pairwise (fun a b : LbEntry => b.karma ≤ a.karma) (leaderboard evs now)
      ∧ (∀ e ∈ leaderboard evs now, e.karma = karmaSum (inWindowEvents evs now) e.userId)
      ∧ (∀ e ∈ leaderboard evs now, ∃ ev ∈ evs,
          ev.userId = e.userId ∧ windowCutoff now ≤ ev.createdAt) := by
  obtain ⟨hlen, hrank, hsorted, hkarma⟩ :=
    leaderboardEnum_spec (groupUsers evs now) evs now
  refine ⟨hlen, hrank, hsorted, ?_, ?_⟩
  · intro e he
    exact (hkarma e he).1
  · intro e he
    exact mem_groupUsers evs now e.userId (hkarma e he).2

/-! ## Claim C8: tie handling -/


/-- C8 counterexample: the query orders by karma only; for the tied
ledger `c8events` two group-enumeration orders the database is free to
return — both permutations of the distinct in-window users — yield
different ranked lists, so the ordering is not fixed by the
implementation and two evaluations need not agree. -/
theorem c8_counterexample :
    List.Perm [1, 2] (groupUsers c8events 1000)
      ∧ List.Perm [2, 1] (groupUsers c8events 1000)
      ∧ leaderboardEnum [1, 2] c8events 1000 ≠ leaderboardEnum [2, 1] c8events 1000 := by
  decide

/-- C8 amended: the implementation fixes no tie-breaking key — rows
with equal karma keep whatever order the database enumerated the
groups in, so the ranking among ties (and the cut at five entries) can
differ between evaluations; every evaluation, under every enumeration
order, still returns at most 5 entries sorted by karma descending with
ranks 1..N and correct per-user in-window sums. -/
theorem c8_tie_order_not_fixed (userOrder : List Nat) (evs : List KarmaRec) (now : Int) :
    (leaderboardEnum userOrder evs now).length ≤ 5
      ∧ ((leaderboardEnum userOrder evs now).map LbEntry.rank
          = List.range' 1 (leaderboardEnum userOrder evs now).length)
      ∧ List.Pairwise (fun a b : LbEntry => b.karma ≤ a.karma) (leaderboardEnum userOrder evs now)
      ∧ (∀ e ∈ leaderboardEnum userOrder evs now,
          e.karma = karmaSum (inWindowEvents evs now) e.userId ∧ e.userId ∈ userOrder) :=
  leaderboardEnum_spec userOrder evs now
/-! ## Claim C4: the path/depth invariant of comment creation -/

theorem nodup_snoc {α : Type} (l : List α) (a : α) (hnd : l.Nodup) (ha : a ∉ l) :
    (l ++ [a]).Nodup := by
  rw [List.nodup_append]
  refine ⟨hnd, List.nodup_singleton a, ?_⟩
  intro x hx hxa
  rw [List.mem_singleton] at hxa
  exact ha (hxa ▸ hx)

/-- The inductive invariant of comment creation: ids stay distinct,
parents stay present, and every comment's depth and path satisfy the
assignment rules with depth equal to its path's separator count. -/
theorem reachable_inv (s : Store) (hr : Reachable s) :
    (s.comments.map CommentRec.id).Nodup
      ∧ (∀ c ∈ s.comments, ∀ q, c.parentId = some q → q ∈ s.comments.map CommentRec.id)
      ∧ (∀ c ∈ s.comments,
          (c.parentId = none → c.depth = 0 ∧ c.path = Nat.repr c.id)
          ∧ (∀ d ∈ s.comments, c.parentId = some d.id →
              c.depth = d.depth + 1 ∧ c.path = d.path ++ "." ++ Nat.repr c.id)
          ∧ c.depth = countDots c.path) := by
  induction hr with
  | init posts =>
    refine ⟨by simp, ?_, ?_⟩
    · intro c hc
      exact absurd hc (List.not_mem_nil c)
    · intro c hc
      exact absurd hc (List.not_mem_nil c)
  | create s s' c u postId parentField content now newId hr hfresh hok ih =>
    obtain ⟨ihnd, ihclosed, ihmain⟩ := ih
    -- serializer validation only filters requests; a successful
    -- creation always went through perform_create
    have hok' : commentPerformCreate s u postId parentField content now newId
        = Except.ok (c, s') := by
      rcases hpf : parentField with _ | q
      · rw [hpf] at hok
        simpa [commentCreate] using hok
      · rw [hpf] at hok
        rcases hg : s.comments.find? fun c0 => c0.id == q with _ | par
        · simp [commentCreate, hg] at hok
        · simpa [commentCreate, hg] using hok
    rcases hpost : s.posts.find? fun p => p.id == postId with _ | P
    · simp [commentPerformCreate, hpost] at hok'
    · by_cases hp0 : parentField.getD 0 = 0
      -- ROOT CREATION
      · have hb : (parentField.getD 0 == 0) = true := by simp [hp0]
        simp only [commentPerformCreate, hpost, hb, if_true, Except.ok.injEq,
          Prod.mk.injEq] at hok'
        obtain ⟨hc, hs'⟩ := hok'
        subst hc
        subst hs'
        show ((s.comments ++ [newRootComment newId postId u content now]).map CommentRec.id).Nodup
          ∧ _ ∧ _
        refine ⟨?_, ?_, ?_⟩
        · rw [List.map_append]
          exact nodup_snoc _ _ ihnd hfresh
        · intro c0 hc0 q hq
          rw [List.map_append]
          rcases List.mem_append.mp hc0 with h0 | h0
          · exact List.mem_append.mpr (Or.inl (ihclosed c0 h0 q hq))
          · rw [List.mem_singleton] at h0
            subst h0
            exact absurd hq (by simp [newRootComment])
        · intro c0 hc0
          rcases List.mem_append.mp hc0 with h0 | h0
          · refine ⟨(ihmain c0 h0).1, ?_, (ihmain c0 h0).2.2⟩
            intro d hd hpd
            rcases List.mem_append.mp hd with hd0 | hd0
            · exact (ihmain c0 h0).2.1 d hd0 hpd
            · rw [List.mem_singleton] at hd0
              subst hd0
              have : newId ∈ s.comments.map CommentRec.id := ihclosed c0 h0 _ hpd
              exact absurd this hfresh
          · rw [List.mem_singleton] at h0
            subst h0
            refine ⟨fun _ => ⟨rfl, rfl⟩, ?_, ?_⟩
            · intro d _ hpd
              exact absurd hpd (by simp [newRootComment])
            · show (0 : Nat) = countDots (Nat.repr newId)
              exact (countDots_repr newId).symm
      -- CHILD CREATION
      · have hb : (parentField.getD 0 == 0) = false := by simp [hp0]
        rcases hpar : s.comments.find?
            fun c => c.id == parentField.getD 0 && c.postId == postId with _ | par
        · simp [commentPerformCreate, hpost, hb, hpar] at hok'
        · have hpar_mem : par ∈ s.comments := List.mem_of_find?_eq_some hpar
          simp only [commentPerformCreate, hpost, hb, Bool.false_eq_true, if_false, hpar,
            Except.ok.injEq, Prod.mk.injEq] at hok'
          obtain ⟨hc, hs'⟩ := hok'
          subst hc
          subst hs'
          show ((s.comments ++ [newChildComment newId postId u par content now]).map
              CommentRec.id).Nodup ∧ _ ∧ _
          refine ⟨?_, ?_, ?_⟩
          · rw [List.map_append]
            exact nodup_snoc _ _ ihnd hfresh
          · intro c0 hc0 q hq
            rw [List.map_append]
            rcases List.mem_append.mp hc0 with h0 | h0
            · exact List.mem_append.mpr (Or.inl (ihclosed c0 h0 q hq))
            · rw [List.mem_singleton] at h0
              subst h0
              have hq' : q = par.id := by
                have : some par.id = some q := hq
                injection this with h
                exact h.symm
              subst hq'
              exact List.mem_append.mpr
                (Or.inl (List.mem_map.mpr ⟨par, hpar_mem, rfl⟩))
          · intro c0 hc0
            rcases List.mem_append.mp hc0 with h0 | h0
            · refine ⟨(ihmain c0 h0).1, ?_, (ihmain c0 h0).2.2⟩
              intro d hd hpd
              rcases List.mem_append.mp hd with hd0 | hd0
              · exact (ihmain c0 h0).2.1 d hd0 hpd
              · rw [List.mem_singleton] at hd0
                subst hd0
                have : newId ∈ s.comments.map CommentRec.id := ihclosed c0 h0 _ hpd
                exact absurd this hfresh
            · rw [List.mem_singleton] at h0
              subst h0
              refine ⟨?_, ?_, ?_⟩
              · intro hnone
                exact absurd hnone (by simp [newChildComment])
              · intro d hd hpd
                have hid : par.id = d.id := by
                  have : some par.id = some d.id := hpd
                  injection this
                rcases List.mem_append.mp hd with hd0 | hd0
                · have hdp : d = par :=
                    List.inj_on_of_nodup_map ihnd hd0 hpar_mem hid.symm
                  subst hdp
                  exact ⟨rfl, rfl⟩
                · rw [List.mem_singleton] at hd0
                  subst hd0
                  have : newId ∈ s.comments.map CommentRec.id := by
                    have hidn : par.id = newId := hid
                    exact hidn ▸ List.mem_map.mpr ⟨par, hpar_mem, rfl⟩
                  exact absurd this hfresh
              · show par.depth + 1 = countDots (par.path ++ "." ++ Nat.repr newId)
                rw [countDots_child]
                rw [(ihmain par hpar_mem).2.2]

/-- C4: a created root comment has depth 0 and path equal to its own id
string; a created child has depth parent+1 and path equal to the
parent's path extended with "." and its own id; and for every comment
reachable through creation, depth equals the number of "." separators
in its path. -/
theorem c4_path_depth_invariant (s : Store) (hr : Reachable s) :
    ∀ c ∈ s.comments,
      (c.parentId = none → c.depth = 0 ∧ c.path = Nat.repr c.id)
      ∧ (∀ d ∈ s.comments, c.parentId = some d.id →
          c.depth = d.depth + 1 ∧ c.path = d.path ++ "." ++ Nat.repr c.id)
      ∧ c.depth = countDots c.path :=
  (reachable_inv s hr).2.2


theorem c4_store_reachable : Reachable c4s2 :=
  Reachable.create c4s1 c4s2 c4child 2 1 (some 1) "c" 1 2
    (Reachable.create c4s0 c4s1 c4root 1 1 none "r" 0 1
      (Reachable.init c4s0.posts) (by simp [c4s0]) rfl)
    (by simp [c4s1, c4root]) rfl

theorem c4_witness :
    Reachable c4s2
      ∧ (∀ c ∈ c4s2.comments,
          (c.parentId = none → c.depth = 0 ∧ c.path = Nat.repr c.id)
          ∧ (∀ d ∈ c4s2.comments, c.parentId = some d.id →
              c.depth = d.depth + 1 ∧ c.path = d.path ++ "." ++ Nat.repr c.id)
          ∧ c.depth = countDots c.path) :=
  ⟨c4_store_reachable, c4_path_depth_invariant c4s2 c4_store_reachable⟩
end CommunityFeed
